import Mathlib

/-!
Formal model of the trade-analytics engine of the TradePT backend.

The definitions below are a shallow embedding of
backend/app/ai_services/analysis.py (the standalone, unit-tested version of
the engine; backend/app/services/analysis/analysis.py is a method-for-method
copy whose only differences are noted in comments where they matter).

Modelling conventions:
- Python floats are modelled as exact rationals; the confidence field of a
  pattern-detection result is real-valued because the consistent-timing
  detector takes a square root.
- Python datetime values are modelled as integer POSIX seconds; datetime
  subtraction followed by total_seconds() is integer subtraction, the .days
  field of a timedelta is floor division by 86400, and the .hour field of a
  datetime is (t mod 86400) div 3600.
- Optional attributes of trade objects (the source reads every field with
  getattr(t, field, default) or dict.get) are Option-valued fields.
- Python round(x, 2) is modelled as round (x * 100) / 100; Python rounds
  half-to-even while Mathlib rounds half-up, which differ only when x * 100
  is an exact half-integer, a tie no statement below exercises.
- The details string of a detection result is a human-readable rationale
  that no computation consumes (and the spec says it is not machine-parsed
  downstream), so it is left out of the model.
-/

/-- The TradingPattern enumeration of the source (all seven members, of which
the four detectors use four). -/
inductive TradingPattern where
  | REVENGE_TRADING
  | OVERTRADING
  | LOSS_CHASING
  | CONSISTENT_TIMING
  | GOOD_POSITION_SIZING
  | EMOTIONAL_TRADING
  | RISK_ISSUES
deriving DecidableEq, Repr

/-- A trade record as the engine reads it: the fields of the TradeProtocol
class, with every attribute the source reads through a defaulting accessor
modelled as an Option. user_id is never read by the engine and is omitted. -/
structure Trade where
  id : ℤ
  contract_type : Option String
  symbol : Option String
  buy_price : ℚ
  sell_price : Option ℚ
  profit_loss : Option ℚ
  purchase_time : ℤ
  sell_time : Option ℤ
deriving DecidableEq, Repr

/-- Result of one pattern detector (PatternDetectionResult minus the
unmodelled details string). -/
structure PatternDetectionResult where
  pattern : TradingPattern
  detected : Bool
  confidence : ℝ

/-- The statistics dictionary returned by calculate_statistics, as a record. -/
structure TradeStatistics where
  total_trades : ℕ
  winning_trades : ℕ
  losing_trades : ℕ
  win_rate : ℚ
  total_profit_loss : ℚ
  average_profit : ℚ
  average_loss : ℚ
  largest_win : ℚ
  largest_loss : ℚ
  average_trade_duration_hours : ℚ
  most_traded_symbol : String
  most_traded_contract_type : String
deriving DecidableEq, Repr

/-- The source expression getattr(t, 'profit_loss', 0) or 0: a missing or
None profit_loss reads as 0, and the Python truthiness coercion also sends an
explicit 0 to 0, so the whole expression is Option.getD 0. -/
def plOrZero (t : Trade) : ℚ := t.profit_loss.getD 0

/-- statistics.mean, exact over the rationals. -/
def mean (l : List ℚ) : ℚ := l.sum / (l.length : ℚ)

/-- Python round(x, 2) on a rational (see the header note about ties). -/
def round2 (x : ℚ) : ℚ := ((round (x * 100) : ℤ) : ℚ) / 100

/-- Python round(x, 2) on a real. -/
noncomputable def roundTo2R (x : ℝ) : ℝ := ((round (x * 100) : ℤ) : ℝ) / 100

/-- Python max on a nonempty list of numbers; the 0 default is dead code
because every call site guards the list against emptiness. -/
def pyMax (l : List ℚ) : ℚ := l.maximum.unbot' 0

/-- Python min on a nonempty list of numbers; same dead 0 default. -/
def pyMin (l : List ℚ) : ℚ := l.minimum.untop' 0

/-- calculate_win_rate: share of trades whose profit_loss attribute is
present, truthy and strictly positive (for a numeric field that is exactly
plOrZero t > 0), as a percentage; 0 on the empty list. -/
def calculate_win_rate (trades : List Trade) : ℚ :=
  if trades = [] then 0
  else ((trades.countP fun t => decide (0 < plOrZero t)) : ℚ) / (trades.length : ℚ) * 100

/-- The profits bucket of calculate_statistics and _detect_risk_issues:
strictly positive derived profit_loss values, in trade order. The source
builds the statistics buckets in one loop with an if/elif on the sign, which
is the same as two filters. -/
def profitsOf (trades : List Trade) : List ℚ :=
  trades.filterMap fun t => if 0 < plOrZero t then some (plOrZero t) else none

/-- The losses bucket of calculate_statistics: strictly negative derived
profit_loss values, signed, in trade order. -/
def lossesOf (trades : List Trade) : List ℚ :=
  trades.filterMap fun t => if plOrZero t < 0 then some (plOrZero t) else none

/-- The losses list of _detect_risk_issues: absolute values of the strictly
negative derived profit_loss values, in trade order. -/
def lossMagnitudesOf (trades : List Trade) : List ℚ :=
  trades.filterMap fun t => if plOrZero t < 0 then some |plOrZero t| else none

/-- The durations loop of calculate_statistics: for each trade with both
timestamps (datetime truthiness never fails on a present datetime), the span
in hours. -/
def tradeDurationsHours (trades : List Trade) : List ℚ :=
  trades.filterMap fun t => t.sell_time.map fun st => ((st - t.purchase_time : ℤ) : ℚ) / 3600

/-- One step of the symbol_counts[symbol] = symbol_counts.get(symbol, 0) + 1
loop on an insertion-ordered association list (the model of a Python dict):
increment the existing entry, or append a fresh entry with count 1. -/
def bump : List (String × ℕ) → String → List (String × ℕ)
  | [], k => [(k, 1)]
  | (k', c) :: rest, k => if k = k' then (k', c + 1) :: rest else (k', c) :: bump rest k

/-- The whole counting loop: fold bump over the keys in trade order. -/
def countKeys (keys : List String) : List (String × ℕ) :=
  keys.foldl bump []

/-- Dict lookup on the association list (first matching entry). -/
def cnt : List (String × ℕ) → String → ℕ
  | [], _ => 0
  | (k', c) :: rest, k => if k = k' then c else cnt rest k

/-- The scan done by Python max(counts, key=counts.get): keep the current
best key and replace it only on a strictly larger count, so the first key
reaching the maximum count wins. -/
def maxKeyAux : String → ℕ → List (String × ℕ) → String
  | bk, _, [] => bk
  | bk, bc, (k, c) :: rest => if bc < c then maxKeyAux k c rest else maxKeyAux bk bc rest

/-- Python max(counts, key=counts.get) over the insertion-ordered count map;
the source substitutes the sentinel when the map is empty. -/
def maxKey : List (String × ℕ) → String
  | [] => "N/A"
  | (k, c) :: rest => maxKeyAux k c rest

/-- Grouping key for the symbol counting loop (missing symbol reads as the
Unknown sentinel). -/
def symbolKey (t : Trade) : String := t.symbol.getD "Unknown"

/-- Grouping key for the contract-type counting loop. -/
def contractKey (t : Trade) : String := t.contract_type.getD "Unknown"

/-- calculate_statistics of backend/app/ai_services/analysis.py. -/
def calculate_statistics (trades : List Trade) : TradeStatistics :=
  if trades = [] then
    { total_trades := 0, winning_trades := 0, losing_trades := 0, win_rate := 0,
      total_profit_loss := 0, average_profit := 0, average_loss := 0,
      largest_win := 0, largest_loss := 0, average_trade_duration_hours := 0,
      most_traded_symbol := "N/A", most_traded_contract_type := "N/A" }
  else
    let profits := profitsOf trades
    let losses := lossesOf trades
    let durations := tradeDurationsHours trades
    let symbol_counts := countKeys (trades.map symbolKey)
    let contract_counts := countKeys (trades.map contractKey)
    let total_pl := (trades.map plOrZero).sum
    { total_trades := trades.length
      winning_trades := profits.length
      losing_trades := losses.length
      win_rate := calculate_win_rate trades
      total_profit_loss := round2 total_pl
      average_profit := if profits ≠ [] then round2 (mean profits) else 0
      average_loss := if losses ≠ [] then round2 (mean losses) else 0
      largest_win := if profits ≠ [] then round2 (pyMax profits) else 0
      largest_loss := if losses ≠ [] then round2 (pyMin losses) else 0
      average_trade_duration_hours := if durations ≠ [] then round2 (mean durations) else 0
      most_traded_symbol := maxKey symbol_counts
      most_traded_contract_type := maxKey contract_counts }

/-- The sort key of detect_patterns: ascending purchase_time. -/
def byTime (a b : Trade) : Prop := a.purchase_time ≤ b.purchase_time

instance : DecidableRel byTime := fun a b => Int.decLe a.purchase_time b.purchase_time

instance : IsTotal Trade byTime := ⟨fun a b => Int.le_total a.purchase_time b.purchase_time⟩

instance : IsTrans Trade byTime := ⟨fun _ _ _ => Int.le_trans⟩

/-- Python sorted(trades, key=purchase_time) is a stable sort by the key; any
two stable sorts agree pointwise, so insertion sort by the same key is the
exact same function. -/
def sortByTime (trades : List Trade) : List Trade := List.insertionSort byTime trades

/-- Accumulator of the _detect_revenge_trading loop. -/
structure RevengeAcc where
  rapid : ℕ
  consec : ℕ
  maxConsec : ℕ
deriving DecidableEq, Repr

/-- One iteration of the revenge-trading loop body for the adjacent pair
(prev, curr). -/
def revengeStep (acc : RevengeAcc) (prev curr : Trade) : RevengeAcc :=
  if plOrZero prev < 0 then
    { rapid :=
        if ((curr.purchase_time - prev.purchase_time : ℤ) : ℚ) / 60 < 30 then
          acc.rapid + 1
        else acc.rapid
      consec := acc.consec + 1
      maxConsec := max acc.maxConsec (acc.consec + 1) }
  else
    { acc with consec := 0 }

/-- The for i in range(1, len(trades)) loop: walk adjacent pairs. -/
def revengeWalk : RevengeAcc → List Trade → RevengeAcc
  | acc, prev :: curr :: rest => revengeWalk (revengeStep acc prev curr) (curr :: rest)
  | acc, _ => acc

/-- _detect_revenge_trading of backend/app/ai_services/analysis.py. -/
def _detect_revenge_trading (trades : List Trade) : PatternDetectionResult :=
  if trades.length < 3 then
    { pattern := .REVENGE_TRADING, detected := false, confidence := 0 }
  else
    let acc := revengeWalk ⟨0, 0, 0⟩ trades
    let ratioQ : ℚ :=
      if 1 < trades.length then (acc.rapid : ℚ) / ((trades.length : ℚ) - 1) else 0
    { pattern := .REVENGE_TRADING
      detected := decide (1/4 < ratioQ) || decide (3 ≤ acc.maxConsec)
      confidence := ((min (ratioQ * (5/2)) 1 : ℚ) : ℝ) }

/-- _detect_overtrading of backend/app/ai_services/analysis.py. The Python
expression (last - first).days or 1 replaces a zero day count by 1 and keeps
any nonzero day count. -/
def _detect_overtrading (trades : List Trade) : PatternDetectionResult :=
  if trades.length < 2 then
    { pattern := .OVERTRADING, detected := false, confidence := 0 }
  else
    let first_time := (trades.head?.map Trade.purchase_time).getD 0
    let last_time := (trades.getLast?.map Trade.purchase_time).getD 0
    let days := (last_time - first_time).fdiv 86400
    let date_range := if days = 0 then 1 else days
    let trades_per_day : ℚ := (trades.length : ℚ) / (date_range : ℚ)
    { pattern := .OVERTRADING
      detected := decide (10 < trades_per_day)
      confidence := ((min (trades_per_day / 20) 1 : ℚ) : ℝ) }

/-- The .hour field of a datetime modelled as POSIX seconds. -/
def hourOf (t : ℤ) : ℕ := (t % 86400).toNat / 3600

/-- The len(set(hours)) == 1 test: the list is nonempty and all entries
coincide. -/
def allEqualNE : List ℚ → Bool
  | [] => false
  | x :: xs => xs.all fun y => y == x

/-- statistics.stdev squared: the sample variance with denominator n - 1. -/
def sampleVar (l : List ℚ) : ℚ :=
  (l.map fun x => (x - mean l) ^ 2).sum / ((l.length : ℚ) - 1)

/-- _detect_consistent_timing of backend/app/ai_services/analysis.py. The
standard deviation is a real square root, hence the classical branch on the
real comparison std_dev < 3. -/
noncomputable def _detect_consistent_timing (trades : List Trade) : PatternDetectionResult :=
  if trades.length < 5 then
    { pattern := .CONSISTENT_TIMING, detected := false, confidence := 0 }
  else
    let hours : List ℚ := trades.map fun t => (hourOf t.purchase_time : ℚ)
    let std_dev : ℝ := if allEqualNE hours then 0 else Real.sqrt (sampleVar hours)
    { pattern := .CONSISTENT_TIMING
      detected := if std_dev < 3 then true else false
      confidence := roundTo2R (max 0 (1 - std_dev / 6)) }

/-- _detect_risk_issues of backend/app/ai_services/analysis.py. The float
value inf that the source assigns to the ratio when avg_profit is not
positive is modelled as the none case of an optional rational: inf > 2 makes
detected true and min((inf - 1) / 3, 1.0) = 1.0 gives confidence 1.
(The copy in backend/app/services/analysis/analysis.py keeps the losses
signed instead of taking absolute values; the spec's design notes flag that
variant as the non-functional revision, and the claims follow this one.) -/
def _detect_risk_issues (trades : List Trade) : PatternDetectionResult :=
  if trades.length < 3 then
    { pattern := .RISK_ISSUES, detected := false, confidence := 0 }
  else
    let profits := profitsOf trades
    let losses := lossMagnitudesOf trades
    if profits = [] ∨ losses = [] then
      { pattern := .RISK_ISSUES, detected := false, confidence := 0 }
    else
      let avg_profit := mean profits
      let avg_loss := mean losses
      match (if 0 < avg_profit then some (avg_loss / avg_profit) else none : Option ℚ) with
      | some ratioQ =>
          { pattern := .RISK_ISSUES
            detected := decide (2 < ratioQ)
            confidence := ((if 1 < ratioQ then min ((ratioQ - 1) / 3) 1 else 0 : ℚ) : ℝ) }
      | none =>
          { pattern := .RISK_ISSUES, detected := true, confidence := 1 }

/-- detect_patterns of backend/app/ai_services/analysis.py: the empty input
short-circuits to the empty list, otherwise the input is sorted by purchase
time and the four detectors run in their fixed order. -/
noncomputable def detect_patterns (trades : List Trade) : List PatternDetectionResult :=
  match trades with
  | [] => []
  | _ :: _ =>
    let sorted_trades := sortByTime trades
    [_detect_revenge_trading sorted_trades,
     _detect_overtrading sorted_trades,
     _detect_consistent_timing sorted_trades,
     _detect_risk_issues sorted_trades]

/-!
Spec-side definitions: statements of the claims in the spec's own words,
kept separate from the embedding above so the two can be compared.
-/

/-- The spec glossary's derived P/L, as the claims state it: the profitLoss
value when present, else sellPrice - buyPrice when sellPrice is present,
else 0. (Definition written from the spec's words, to be compared with the
code, which never falls back to sellPrice - buyPrice.) -/
def derivedPLSpec (t : Trade) : ℚ :=
  match t.profit_loss with
  | some pl => pl
  | none =>
    match t.sell_price with
    | some sp => sp - t.buy_price
    | none => 0

/-- Claim C3's win rate, written with the spec glossary's derived P/L. -/
def winRateDerivedSpec (trades : List Trade) : ℚ :=
  if trades = [] then 0
  else 100 * ((trades.countP fun t => decide (0 < derivedPLSpec t)) : ℚ) / (trades.length : ℚ)

/-- Index of the first occurrence of a key while scanning in input order
(length of the list when the key is absent). -/
def firstIdx : List String → String → ℕ
  | [], _ => 0
  | k' :: ks, k => if k = k' then 0 else firstIdx ks k + 1

/-!
Concrete trade fixtures used by witnesses and counterexamples.
-/

/-- A minimal trade with a given purchase time and profit_loss. -/
def tradeAt (time : ℤ) (pl : ℚ) : Trade :=
  { id := 0, contract_type := none, symbol := none, buy_price := 100,
    sell_price := none, profit_loss := some pl, purchase_time := time, sell_time := none }

/-- A trade with a given symbol. -/
def tradeSym (time : ℤ) (s : String) : Trade :=
  { id := 0, contract_type := none, symbol := some s, buy_price := 100,
    sell_price := none, profit_loss := some 1, purchase_time := time, sell_time := none }

/-- A trade with no profit_loss but a resolvable sellPrice - buyPrice. -/
def tradeOpenPL : Trade :=
  { id := 2, contract_type := none, symbol := none, buy_price := 5,
    sell_price := some 10, profit_loss := none, purchase_time := 0, sell_time := none }

/-- Eleven trades placed a minute apart inside a single day. -/
def elevenTrades : List Trade := (List.range 11).map fun i => tradeAt (60 * i) 1

/-!
Shared helper lemmas.
-/

theorem filterMap_ite_eq {α β : Type} (f : α → ℚ) (g : ℚ → β) (p : ℚ → Prop)
    [DecidablePred p] (l : List α) :
    (l.filterMap fun a => if p (f a) then some (g (f a)) else none) =
      ((l.map f).filter fun x => decide (p x)).map g := by
  induction l with
  | nil => rfl
  | cons a l ih =>
    by_cases h : p (f a) <;>
      simp [List.filterMap_cons, List.filter_cons, h, ih]

theorem profits_length (l : List Trade) :
    (profitsOf l).length = l.countP fun t => decide (0 < plOrZero t) := by
  induction l with
  | nil => rfl
  | cons a l ih =>
    unfold profitsOf at ih ⊢
    by_cases h : 0 < plOrZero a <;>
      simp [List.filterMap_cons, List.countP_cons, h, ih]

theorem revenge_pattern (l : List Trade) :
    (_detect_revenge_trading l).pattern = .REVENGE_TRADING := by
  unfold _detect_revenge_trading; split <;> rfl

theorem overtrading_pattern (l : List Trade) :
    (_detect_overtrading l).pattern = .OVERTRADING := by
  unfold _detect_overtrading; split <;> rfl

theorem consistent_timing_pattern (l : List Trade) :
    (_detect_consistent_timing l).pattern = .CONSISTENT_TIMING := by
  unfold _detect_consistent_timing; split <;> rfl

theorem risk_issues_pattern (l : List Trade) :
    (_detect_risk_issues l).pattern = .RISK_ISSUES := by
  unfold _detect_risk_issues
  split
  · rfl
  · dsimp only
    split
    · rfl
    · split <;> rfl

theorem sorted_head_le_getLast (trades : List Trade) (hs : List.Sorted byTime trades)
    (h : trades ≠ []) :
    (trades.head?.map Trade.purchase_time).getD 0 ≤
      (trades.getLast?.map Trade.purchase_time).getD 0 := by
  match trades, h with
  | a :: t, _ =>
    have hmem := List.getLast_mem (List.cons_ne_nil a t)
    have hle : byTime a ((a :: t).getLast (List.cons_ne_nil a t)) := by
      rcases List.mem_cons.mp hmem with heq | hmem'
      · rw [heq]
        exact le_refl _
      · exact List.rel_of_sorted_cons hs _ hmem'
    rw [List.getLast?_eq_getLast (a :: t) (List.cons_ne_nil a t)]
    exact hle

/-!
Claims.
-/

/-- Claim C1, counterexample: the claim says detect_patterns returns exactly
four results for every input including the empty list, but on the empty list
the code short-circuits and returns the empty list. -/
theorem C1_counterexample : (detect_patterns []).length ≠ 4 := by
  rw [show detect_patterns [] = [] from rfl]
  decide

/-- Claim C1 (amended): for every nonempty input list, detect_patterns
returns exactly four PatternDetectionResult values, one per heuristic, in the
fixed order RevengeTrading, Overtrading, ConsistentTiming, RiskIssues; the
empty input yields the empty list (see the counterexample). -/
theorem C1_detect_patterns_fixed_order (trades : List Trade) (h : trades ≠ []) :
    (detect_patterns trades).map PatternDetectionResult.pattern =
      [.REVENGE_TRADING, .OVERTRADING, .CONSISTENT_TIMING, .RISK_ISSUES] := by
  match trades, h with
  | t :: ts, _ =>
    show ([_detect_revenge_trading _, _detect_overtrading _,
           _detect_consistent_timing _, _detect_risk_issues _].map
            PatternDetectionResult.pattern) = _
    rw [List.map_cons, List.map_cons, List.map_cons, List.map_cons,
      revenge_pattern, overtrading_pattern, consistent_timing_pattern, risk_issues_pattern]
    rfl

theorem C1_witness :
    ([tradeAt 0 1] : List Trade) ≠ [] ∧
      (detect_patterns [tradeAt 0 1]).map PatternDetectionResult.pattern =
        [.REVENGE_TRADING, .OVERTRADING, .CONSISTENT_TIMING, .RISK_ISSUES] :=
  ⟨by decide, C1_detect_patterns_fixed_order [tradeAt 0 1] (by decide)⟩

/-- Claim C3, counterexample: on a trade with no profitLoss but
sellPrice = 10 and buyPrice = 5, the claimed win rate (with the spec
glossary's sellPrice - buyPrice fallback) is 100, but calculate_win_rate
ignores prices and treats the missing profit_loss as 0, returning 0. -/
theorem C3_counterexample :
    calculate_win_rate [tradeOpenPL] ≠ winRateDerivedSpec [tradeOpenPL] := by
  norm_num [calculate_win_rate, winRateDerivedSpec, tradeOpenPL, plOrZero, derivedPLSpec]

/-- Claim C3 (amended): winRate returns 100 x (number of trades whose
profitLoss field is present and strictly positive) / (total number of
trades) - the code never falls back to sellPrice - buyPrice, a missing or
zero profitLoss simply does not count as a win; for the empty list it
returns 0.0, and the input need not be sorted (the result is invariant
under permutation of the input). -/
theorem C3_win_rate_amended :
    (∀ trades : List Trade, calculate_win_rate trades =
      if trades = [] then 0
      else 100 * ((trades.countP fun t => decide (0 < plOrZero t)) : ℚ) / (trades.length : ℚ)) ∧
    (∀ l l' : List Trade, l.Perm l' → calculate_win_rate l = calculate_win_rate l') := by
  constructor
  · intro trades
    unfold calculate_win_rate
    split
    · rfl
    · ring
  · intro l l' h
    unfold calculate_win_rate
    rcases eq_or_ne l [] with hl | hl
    · subst hl
      rw [List.nil_perm] at h
      simp [h]
    · have hl' : l' ≠ [] := by
        intro hnil
        subst hnil
        exact hl (List.perm_nil.mp h)
      rw [if_neg hl, if_neg hl', h.countP_eq, h.length_eq]

theorem C3_witness :
    calculate_win_rate [tradeAt 0 1, tradeAt 5 (-2)] =
        (if ([tradeAt 0 1, tradeAt 5 (-2)] : List Trade) = [] then 0
          else 100 * (([tradeAt 0 1, tradeAt 5 (-2)].countP
            fun t => decide (0 < plOrZero t)) : ℚ) / 2) ∧
      ([tradeAt 0 1, tradeAt 5 (-2)] : List Trade).Perm [tradeAt 5 (-2), tradeAt 0 1] ∧
      calculate_win_rate [tradeAt 0 1, tradeAt 5 (-2)] =
        calculate_win_rate [tradeAt 5 (-2), tradeAt 0 1] :=
  ⟨C3_win_rate_amended.1 _, by decide, C3_win_rate_amended.2 _ _ (by decide)⟩

/-- Claim C10: for every nonempty trade list the snapshot is internally
consistent: win_rate equals 100 x winning_trades / total_trades, although
the two sides come from different code paths (the win-rate counting
predicate and the profit-bucket partitioning predicate). -/
theorem C10_win_rate_consistent (trades : List Trade) (h : trades ≠ []) :
    (calculate_statistics trades).win_rate =
      100 * ((calculate_statistics trades).winning_trades : ℚ) /
        ((calculate_statistics trades).total_trades : ℚ) := by
  unfold calculate_statistics
  rw [if_neg h]
  show calculate_win_rate trades =
    100 * ((profitsOf trades).length : ℚ) / (trades.length : ℚ)
  unfold calculate_win_rate
  rw [if_neg h, profits_length trades]
  ring

theorem C10_witness :
    ([tradeAt 0 1, tradeAt 5 (-2)] : List Trade) ≠ [] ∧
      (calculate_statistics [tradeAt 0 1, tradeAt 5 (-2)]).win_rate =
        100 * ((calculate_statistics [tradeAt 0 1, tradeAt 5 (-2)]).winning_trades : ℚ) /
          ((calculate_statistics [tradeAt 0 1, tradeAt 5 (-2)]).total_trades : ℚ) :=
  ⟨by decide, C10_win_rate_consistent _ (by decide)⟩

/-!
Claim C7: overtrading detector.
-/

/-- Claim C7's dateRangeDays: max(1, integer day count between the first and
last trade purchase times). -/
def dateRangeDaysSpec (trades : List Trade) : ℤ :=
  max 1 (((trades.getLast?.map Trade.purchase_time).getD 0 -
    (trades.head?.map Trade.purchase_time).getD 0).fdiv 86400)

/-- Claim C7's tradesPerDay. -/
def tradesPerDaySpec (trades : List Trade) : ℚ :=
  (trades.length : ℚ) / (dateRangeDaysSpec trades : ℚ)

/-- Claim C7: on a time-sorted list, fewer than 2 trades give
detected = false with confidence 0; with 2 or more trades the detector uses
dateRangeDays = max(1, day count between first and last purchase time) and
tradesPerDay = tradeCount / dateRangeDays, returning
detected = (tradesPerDay > 10) and confidence = min(tradesPerDay / 20, 1);
in particular 11 trades inside a single day give tradesPerDay = 11,
detected = true, confidence = 0.55. -/
theorem C7_overtrading (trades : List Trade) (hs : List.Sorted byTime trades) :
    (trades.length < 2 →
      _detect_overtrading trades =
        { pattern := .OVERTRADING, detected := false, confidence := 0 }) ∧
    (2 ≤ trades.length →
      _detect_overtrading trades =
        { pattern := .OVERTRADING
          detected := decide (10 < tradesPerDaySpec trades)
          confidence := ((min (tradesPerDaySpec trades / 20) 1 : ℚ) : ℝ) }) ∧
    tradesPerDaySpec elevenTrades = 11 ∧
    (_detect_overtrading elevenTrades).detected = true ∧
    (_detect_overtrading elevenTrades).confidence = (((11 : ℚ)/20 : ℚ) : ℝ) := by
  have general : ∀ l : List Trade, List.Sorted byTime l → 2 ≤ l.length →
      _detect_overtrading l =
        { pattern := .OVERTRADING
          detected := decide (10 < tradesPerDaySpec l)
          confidence := ((min (tradesPerDaySpec l / 20) 1 : ℚ) : ℝ) } := by
    intro l hsl h2
    have hne : l ≠ [] := List.length_pos.mp (by omega)
    have hfl := sorted_head_le_getLast l hsl hne
    have hdays : 0 ≤ ((l.getLast?.map Trade.purchase_time).getD 0 -
        (l.head?.map Trade.purchase_time).getD 0).fdiv 86400 :=
      Int.fdiv_nonneg (by omega) (by omega)
    unfold _detect_overtrading
    rw [if_neg (by omega)]
    dsimp only
    have hiteq : (if ((l.getLast?.map Trade.purchase_time).getD 0 -
          (l.head?.map Trade.purchase_time).getD 0).fdiv 86400 = 0 then (1 : ℤ)
        else ((l.getLast?.map Trade.purchase_time).getD 0 -
          (l.head?.map Trade.purchase_time).getD 0).fdiv 86400) = dateRangeDaysSpec l := by
      unfold dateRangeDaysSpec
      split
      · omega
      · omega
    rw [hiteq]
    rfl
  have hten : tradesPerDaySpec elevenTrades = 11 := by
    have hdr : dateRangeDaysSpec elevenTrades = 1 := by decide
    unfold tradesPerDaySpec
    rw [hdr, show elevenTrades.length = 11 from rfl]
    norm_num
  have heleven := general elevenTrades (by decide) (by decide)
  refine ⟨?_, general trades hs, hten, ?_, ?_⟩
  · intro h2
    unfold _detect_overtrading
    rw [if_pos h2]
  · rw [heleven, hten]
    norm_num
  · rw [heleven, hten]
    norm_num

theorem C7_witness :
    List.Sorted byTime elevenTrades ∧ 2 ≤ elevenTrades.length ∧
      _detect_overtrading elevenTrades =
        { pattern := .OVERTRADING
          detected := decide (10 < tradesPerDaySpec elevenTrades)
          confidence := ((min (tradesPerDaySpec elevenTrades / 20) 1 : ℚ) : ℝ) } :=
  ⟨by decide, by decide, (C7_overtrading elevenTrades (by decide)).2.1 (by decide)⟩

/-!
Claim C2: risk-issues detector.
-/

/-- Claim C2's avgProfit: mean of the strictly positive derived P/L values. -/
def avgProfitSpec (trades : List Trade) : ℚ :=
  mean ((trades.map plOrZero).filter fun x => decide (0 < x))

/-- Claim C2's avgLossMagnitude: mean of the absolute values of the strictly
negative derived P/L values. -/
def avgLossMagnitudeSpec (trades : List Trade) : ℚ :=
  mean (((trades.map plOrZero).filter fun x => decide (x < 0)).map fun x => |x|)

/-- Claim C2's ratio = avgLossMagnitude / avgProfit. -/
def riskRatioSpec (trades : List Trade) : ℚ :=
  avgLossMagnitudeSpec trades / avgProfitSpec trades

/-- Trades whose derived P/L values are 10, 10, -5, -35. -/
def riskTradesA : List Trade :=
  [tradeAt 0 10, tradeAt 60 10, tradeAt 120 (-5), tradeAt 180 (-35)]

/-- Trades whose derived P/L values are 10, 10, -5, -41. -/
def riskTradesB : List Trade :=
  [tradeAt 0 10, tradeAt 60 10, tradeAt 120 (-5), tradeAt 180 (-41)]

theorem profitsOf_eq_filter (l : List Trade) :
    profitsOf l = (l.map plOrZero).filter fun x => decide (0 < x) := by
  unfold profitsOf
  rw [filterMap_ite_eq plOrZero (fun x => x) (fun x => 0 < x) l]
  exact List.map_id' _

theorem lossMagnitudesOf_eq_filter (l : List Trade) :
    lossMagnitudesOf l = ((l.map plOrZero).filter fun x => decide (x < 0)).map fun x => |x| := by
  unfold lossMagnitudesOf
  exact filterMap_ite_eq plOrZero (fun x => |x|) (fun x => x < 0) l

theorem mean_pos {l : List ℚ} (hne : l ≠ []) (hpos : ∀ x ∈ l, 0 < x) : 0 < mean l := by
  unfold mean
  apply div_pos (List.sum_pos l hpos hne)
  exact_mod_cast List.length_pos.mpr hne

theorem filter_pos_ne_nil {l : List Trade} (hp : ∃ t ∈ l, 0 < plOrZero t) :
    (l.map plOrZero).filter (fun x => decide (0 < x)) ≠ [] := by
  rcases hp with ⟨t, ht, hpos⟩
  have : plOrZero t ∈ (l.map plOrZero).filter fun x => decide (0 < x) :=
    List.mem_filter.mpr ⟨List.mem_map_of_mem plOrZero ht, by simpa using hpos⟩
  exact List.ne_nil_of_mem this

theorem filter_neg_ne_nil {l : List Trade} (hl : ∃ t ∈ l, plOrZero t < 0) :
    ((l.map plOrZero).filter fun x => decide (x < 0)).map (fun x => |x|) ≠ [] := by
  rcases hl with ⟨t, ht, hneg⟩
  have hmem : plOrZero t ∈ (l.map plOrZero).filter fun x => decide (x < 0) :=
    List.mem_filter.mpr ⟨List.mem_map_of_mem plOrZero ht, by simpa using hneg⟩
  exact List.ne_nil_of_mem (List.mem_map_of_mem (fun x => |x|) hmem)

theorem avgProfitSpec_pos {l : List Trade} (hp : ∃ t ∈ l, 0 < plOrZero t) :
    0 < avgProfitSpec l := by
  unfold avgProfitSpec
  apply mean_pos (filter_pos_ne_nil hp)
  intro x hx
  have := (List.mem_filter.mp hx).2
  simpa using this

/-- Claim C2: on a time-sorted list with at least 3 trades containing both a
strictly positive and a strictly negative derived P/L, the risk detector uses
avgProfit = mean of the positive derived P/L values, avgLossMagnitude = mean
of the absolute values of the negative ones, ratio = avgLossMagnitude /
avgProfit (avgProfit is provably positive here, so the infinity branch is
dead), detected = (ratio > 2), confidence = min((ratio - 1)/3, 1) when
ratio > 1 and 0 otherwise; in particular P/L values 10, 10, -5, -35 give
ratio 2 and detected = false, and 10, 10, -5, -41 give ratio 23/10,
detected = true, confidence 13/30. -/
theorem C2_risk_issues (trades : List Trade) (hs : List.Sorted byTime trades)
    (h3 : 3 ≤ trades.length)
    (hp : ∃ t ∈ trades, 0 < plOrZero t) (hl : ∃ t ∈ trades, plOrZero t < 0) :
    (0 < avgProfitSpec trades ∧
      _detect_risk_issues trades =
        { pattern := .RISK_ISSUES
          detected := decide (2 < riskRatioSpec trades)
          confidence := ((if 1 < riskRatioSpec trades
              then min ((riskRatioSpec trades - 1) / 3) 1 else 0 : ℚ) : ℝ) }) ∧
    riskRatioSpec riskTradesA = 2 ∧
    (_detect_risk_issues riskTradesA).detected = false ∧
    riskRatioSpec riskTradesB = 23/10 ∧
    (_detect_risk_issues riskTradesB).detected = true ∧
    (_detect_risk_issues riskTradesB).confidence = (((13 : ℚ)/30 : ℚ) : ℝ) := by
  have general : ∀ l : List Trade, 3 ≤ l.length →
      (∃ t ∈ l, 0 < plOrZero t) → (∃ t ∈ l, plOrZero t < 0) →
      0 < avgProfitSpec l ∧
      _detect_risk_issues l =
        { pattern := .RISK_ISSUES
          detected := decide (2 < riskRatioSpec l)
          confidence := ((if 1 < riskRatioSpec l
              then min ((riskRatioSpec l - 1) / 3) 1 else 0 : ℚ) : ℝ) } := by
    intro l h3l hpl hll
    have hap : 0 < avgProfitSpec l := avgProfitSpec_pos hpl
    refine ⟨hap, ?_⟩
    unfold _detect_risk_issues
    rw [if_neg (by omega)]
    rw [profitsOf_eq_filter, lossMagnitudesOf_eq_filter]
    rw [if_neg (by
      push_neg
      exact ⟨filter_pos_ne_nil hpl, filter_neg_ne_nil hll⟩)]
    have hap' : 0 < mean ((l.map plOrZero).filter fun x => decide (0 < x)) := hap
    dsimp only
    rw [if_pos hap']
    rfl
  have hA : riskRatioSpec riskTradesA = 2 := by
    norm_num [riskRatioSpec, avgProfitSpec, avgLossMagnitudeSpec, mean, riskTradesA, tradeAt,
      plOrZero, List.filter_cons]
  have hB : riskRatioSpec riskTradesB = 23/10 := by
    norm_num [riskRatioSpec, avgProfitSpec, avgLossMagnitudeSpec, mean, riskTradesB, tradeAt,
      plOrZero, List.filter_cons]
  have genA := (general riskTradesA (by decide) ⟨tradeAt 0 10, by decide⟩
    ⟨tradeAt 120 (-5), by decide⟩).2
  have genB := (general riskTradesB (by decide) ⟨tradeAt 0 10, by decide⟩
    ⟨tradeAt 120 (-5), by decide⟩).2
  refine ⟨general trades h3 hp hl, hA, ?_, hB, ?_, ?_⟩
  · rw [genA, hA]
    norm_num
  · rw [genB, hB]
    norm_num
  · rw [genB, hB]
    norm_num

theorem C2_witness :
    List.Sorted byTime riskTradesB ∧ 3 ≤ riskTradesB.length ∧
      (∃ t ∈ riskTradesB, 0 < plOrZero t) ∧ (∃ t ∈ riskTradesB, plOrZero t < 0) ∧
      (_detect_risk_issues riskTradesB).detected = true :=
  ⟨by decide, by decide, ⟨tradeAt 0 10, by decide⟩, ⟨tradeAt 120 (-5), by decide⟩,
    (C2_risk_issues riskTradesB (by decide) (by decide) ⟨tradeAt 0 10, by decide⟩
      ⟨tradeAt 120 (-5), by decide⟩).2.2.2.2.1⟩

/-!
Claim C6: revenge-trading detector.
-/

/-- Claim C6's rapidCount: adjacent pairs (prev, curr) where prev's derived
P/L is strictly negative and curr's purchase time follows prev's by less than
30 minutes. -/
def rapidCountSpec (trades : List Trade) : ℕ :=
  (trades.zip trades.tail).countP fun pc =>
    decide (plOrZero pc.1 < 0) &&
      decide (((pc.2.purchase_time - pc.1.purchase_time : ℤ) : ℚ) / 60 < 30)

/-- Claim C6's consecutive-loss counter over a list of loss flags: increment
on a loss, reset to 0 otherwise, tracking the running maximum (never reset);
returns (final counter value, running maximum). -/
def runMaxFrom (cur m : ℕ) : List Bool → ℕ × ℕ
  | [] => (cur, m)
  | f :: fs => if f then runMaxFrom (cur + 1) (max m (cur + 1)) fs else runMaxFrom 0 m fs

/-- Claim C6's maxConsecutiveLosses: the walk looks at each pair's prev
trade, i.e. every trade but the last. -/
def maxConsecLossesSpec (trades : List Trade) : ℕ :=
  (runMaxFrom 0 0 (trades.dropLast.map fun t => decide (plOrZero t < 0))).2

/-- Claim C6's ratio = rapidCount / (n - 1). -/
def revengeRatioSpec (trades : List Trade) : ℚ :=
  (rapidCountSpec trades : ℚ) / ((trades.length : ℚ) - 1)

theorem revengeWalk_eq (trades : List Trade) (acc : RevengeAcc) :
    revengeWalk acc trades =
      { rapid := acc.rapid + rapidCountSpec trades
        consec := (runMaxFrom acc.consec acc.maxConsec
          (trades.dropLast.map fun t => decide (plOrZero t < 0))).1
        maxConsec := (runMaxFrom acc.consec acc.maxConsec
          (trades.dropLast.map fun t => decide (plOrZero t < 0))).2 } := by
  induction trades generalizing acc with
  | nil => simp [revengeWalk, rapidCountSpec, runMaxFrom]
  | cons prev rest ih =>
    cases rest with
    | nil => simp [revengeWalk, rapidCountSpec, runMaxFrom]
    | cons curr rest' =>
      rw [show revengeWalk acc (prev :: curr :: rest') =
        revengeWalk (revengeStep acc prev curr) (curr :: rest') from rfl]
      rw [ih (revengeStep acc prev curr)]
      have hdrop : (prev :: curr :: rest').dropLast = prev :: (curr :: rest').dropLast := rfl
      have hzip : (prev :: curr :: rest').zip (prev :: curr :: rest').tail =
        (prev, curr) :: ((curr :: rest').zip (curr :: rest').tail) := rfl
      unfold revengeStep
      by_cases hpl : plOrZero prev < 0
      · rw [if_pos hpl]
        by_cases ht : ((curr.purchase_time - prev.purchase_time : ℤ) : ℚ) / 60 < 30
        · rw [if_pos ht]
          simp only [rapidCountSpec, hzip, hdrop, List.countP_cons, List.map_cons,
            runMaxFrom, hpl, ht, decide_True, Bool.and_self, if_true]
          refine congrArg (fun n => RevengeAcc.mk n _ _) ?_
          omega
        · rw [if_neg ht]
          simp only [rapidCountSpec, hzip, hdrop, List.countP_cons, List.map_cons,
            runMaxFrom, hpl, ht, decide_True, decide_False, Bool.and_false, if_true,
            Bool.false_eq_true, if_false]
          refine congrArg (fun n => RevengeAcc.mk n _ _) ?_
          omega
      · rw [if_neg hpl]
        simp only [rapidCountSpec, hzip, hdrop, List.countP_cons, List.map_cons,
          runMaxFrom, hpl, decide_False, Bool.false_and, if_false, Bool.false_eq_true]
        refine congrArg (fun n => RevengeAcc.mk n _ _) ?_
        omega

/-- Claim C6: on a time-sorted list, fewer than 3 trades give
detected = false with confidence 0; with n ≥ 3 trades the detector counts
rapid re-entries (prev loss followed within 30 minutes) over adjacent pairs,
tracks the maximum run of consecutive losing prev trades (the running
maximum is never reset; a nonnegative prev P/L resets only the counter), and
returns detected = (ratio > 1/4 or maxConsecutiveLosses ≥ 3) and
confidence = min(ratio * 5/2, 1) with ratio = rapidCount / (n - 1). -/
theorem C6_revenge_trading (trades : List Trade) (hs : List.Sorted byTime trades) :
    (trades.length < 3 →
      _detect_revenge_trading trades =
        { pattern := .REVENGE_TRADING, detected := false, confidence := 0 }) ∧
    (3 ≤ trades.length →
      _detect_revenge_trading trades =
        { pattern := .REVENGE_TRADING
          detected := decide ((1 : ℚ)/4 < revengeRatioSpec trades) ||
            decide (3 ≤ maxConsecLossesSpec trades)
          confidence := ((min (revengeRatioSpec trades * (5/2)) 1 : ℚ) : ℝ) }) := by
  constructor
  · intro h3
    unfold _detect_revenge_trading
    rw [if_pos h3]
  · intro h3
    unfold _detect_revenge_trading
    rw [if_neg (by omega)]
    dsimp only
    rw [revengeWalk_eq trades ⟨0, 0, 0⟩]
    rw [if_pos (by omega : 1 < trades.length)]
    dsimp only
    rw [Nat.zero_add]
    rfl

theorem C6_witness :
    List.Sorted byTime riskTradesA ∧ 3 ≤ riskTradesA.length ∧
      _detect_revenge_trading riskTradesA =
        { pattern := .REVENGE_TRADING
          detected := decide ((1 : ℚ)/4 < revengeRatioSpec riskTradesA) ||
            decide (3 ≤ maxConsecLossesSpec riskTradesA)
          confidence := ((min (revengeRatioSpec riskTradesA * (5/2)) 1 : ℚ) : ℝ) } :=
  ⟨by decide, by decide, (C6_revenge_trading riskTradesA (by decide)).2 (by decide)⟩

/-!
Claim C8: consistent-timing detector.
-/

/-- Claim C8's hour-of-day list (0-23 per trade). -/
def hoursSpec (trades : List Trade) : List ℚ :=
  trades.map fun t => (hourOf t.purchase_time : ℚ)

/-- Claim C8's standard deviation: the square root of the sample variance of
the hour values; when all hours are identical the variance is 0, so this is
also 0, matching the code's short-circuit branch. -/
noncomputable def stdDevSpec (trades : List Trade) : ℝ :=
  Real.sqrt ((sampleVar (hoursSpec trades) : ℚ) : ℝ)

/-- Six trades all inside hour 9 of the day. -/
def sixAtNine : List Trade := (List.range 6).map fun i => tradeAt (32400 + 60 * i) 1

theorem sum_of_all_eq {x : ℚ} : ∀ {l : List ℚ}, (∀ y ∈ l, y = x) →
    l.sum = l.length * x := by
  intro l
  induction l with
  | nil => intro _; simp
  | cons a t ih =>
    intro h
    rw [List.sum_cons, ih fun y hy => h y (List.mem_cons_of_mem a hy),
      h a (List.mem_cons_self a t), List.length_cons]
    push_cast
    ring

theorem mean_of_all_eq {x : ℚ} {l : List ℚ} (hne : l ≠ []) (h : ∀ y ∈ l, y = x) :
    mean l = x := by
  unfold mean
  rw [sum_of_all_eq h]
  have hlen : (l.length : ℚ) ≠ 0 := by
    have := List.length_pos.mpr hne
    positivity
  rw [mul_comm, mul_div_assoc, div_self hlen, mul_one]

theorem sampleVar_of_all_eq {x : ℚ} {l : List ℚ} (hne : l ≠ []) (h : ∀ y ∈ l, y = x) :
    sampleVar l = 0 := by
  unfold sampleVar
  rw [mean_of_all_eq hne h]
  have hz : (l.map fun y => (y - x) ^ 2).sum = 0 := by
    apply List.sum_eq_zero
    intro z hz
    rcases List.mem_map.mp hz with ⟨y, hy, rfl⟩
    rw [h y hy]
    ring
  rw [hz, zero_div]

theorem allEqual_spec {x : ℚ} {xs : List ℚ} (h : allEqualNE (x :: xs) = true) :
    ∀ y ∈ x :: xs, y = x := by
  intro y hy
  rcases List.mem_cons.mp hy with rfl | hy'
  · rfl
  · have hb := (List.all_eq_true.mp h) y hy'
    exact eq_of_beq hb

theorem std_branch_eq (trades : List Trade) :
    (if allEqualNE (trades.map fun t => (hourOf t.purchase_time : ℚ)) then (0 : ℝ)
      else Real.sqrt ((sampleVar (trades.map fun t => (hourOf t.purchase_time : ℚ)) : ℚ) : ℝ)) =
      stdDevSpec trades := by
  unfold stdDevSpec hoursSpec
  by_cases h : allEqualNE (trades.map fun t => (hourOf t.purchase_time : ℚ)) = true
  · rw [if_pos h]
    cases hl : trades.map fun t => (hourOf t.purchase_time : ℚ) with
    | nil =>
      rw [hl] at h
      simp [allEqualNE] at h
    | cons x xs =>
      have hvar : sampleVar (x :: xs) = 0 :=
        sampleVar_of_all_eq (List.cons_ne_nil x xs) (allEqual_spec (hl ▸ h))
      rw [hvar]
      norm_num
  · rw [if_neg h]

theorem roundTo2R_one : roundTo2R 1 = 1 := by
  unfold roundTo2R
  rw [show ((1 : ℝ) * 100) = ((100 : ℤ) : ℝ) by norm_num, round_intCast]
  norm_num

/-- Claim C8: on a time-sorted list, fewer than 5 trades give
detected = false with confidence 0; with 5 or more trades the detector takes
the hour-of-day of each purchase time, uses standard deviation 0 when all
hours agree and the sample standard deviation otherwise, and returns
detected = (stdDev < 3) - equivalently, sample variance < 9 - and
confidence = max(0, 1 - stdDev/6) rounded to 2 decimals; in particular 6
trades all at hour 9 give detected = true with confidence 1. -/
theorem C8_consistent_timing (trades : List Trade) (hs : List.Sorted byTime trades) :
    (trades.length < 5 →
      _detect_consistent_timing trades =
        { pattern := .CONSISTENT_TIMING, detected := false, confidence := 0 }) ∧
    (5 ≤ trades.length →
      ((_detect_consistent_timing trades).detected = true ↔ stdDevSpec trades < 3) ∧
      ((_detect_consistent_timing trades).detected = true ↔
        sampleVar (hoursSpec trades) < 9) ∧
      (_detect_consistent_timing trades).confidence =
        roundTo2R (max 0 (1 - stdDevSpec trades / 6))) ∧
    (_detect_consistent_timing sixAtNine).detected = true ∧
    (_detect_consistent_timing sixAtNine).confidence = 1 := by
  have general : ∀ l : List Trade, 5 ≤ l.length →
      _detect_consistent_timing l =
        { pattern := .CONSISTENT_TIMING
          detected := if stdDevSpec l < 3 then true else false
          confidence := roundTo2R (max 0 (1 - stdDevSpec l / 6)) } := by
    intro l h5
    unfold _detect_consistent_timing
    rw [if_neg (by omega)]
    dsimp only
    rw [std_branch_eq l]
  have detested_iff : ∀ l : List Trade, 5 ≤ l.length →
      ((_detect_consistent_timing l).detected = true ↔ stdDevSpec l < 3) := by
    intro l h5
    rw [general l h5]
    by_cases h : stdDevSpec l < 3 <;> simp [h]
  have var_iff : ∀ l : List Trade, (stdDevSpec l < 3 ↔ sampleVar (hoursSpec l) < 9) := by
    intro l
    unfold stdDevSpec
    rw [Real.sqrt_lt' (by norm_num : (0 : ℝ) < 3)]
    rw [show ((3 : ℝ) ^ 2) = ((9 : ℚ) : ℝ) by norm_num]
    exact Rat.cast_lt
  have hvar6 : sampleVar (hoursSpec sixAtNine) = 0 := by
    have hl : hoursSpec sixAtNine = [9, 9, 9, 9, 9, 9] := by decide
    rw [hl]
    exact @sampleVar_of_all_eq 9 [9, 9, 9, 9, 9, 9] (by decide) (by decide)
  have hstd6 : stdDevSpec sixAtNine = 0 := by
    unfold stdDevSpec
    rw [hvar6]
    norm_num
  have hsix := general sixAtNine (by decide)
  refine ⟨?_, fun h5 => ⟨detested_iff trades h5, ?_, ?_⟩, ?_, ?_⟩
  · intro h5
    unfold _detect_consistent_timing
    rw [if_pos h5]
  · rw [detested_iff trades h5]
    exact var_iff trades
  · rw [general trades h5]
  · rw [hsix]
    dsimp only
    rw [if_pos (by rw [hstd6]; norm_num : stdDevSpec sixAtNine < 3)]
  · rw [hsix]
    dsimp only
    rw [hstd6]
    norm_num [roundTo2R_one]

theorem C8_witness :
    List.Sorted byTime sixAtNine ∧ 5 ≤ sixAtNine.length ∧
      ((_detect_consistent_timing sixAtNine).detected = true ↔
        sampleVar (hoursSpec sixAtNine) < 9) :=
  ⟨by decide, by decide, ((C8_consistent_timing sixAtNine (by decide)).2.1 (by decide)).2.1⟩

/-!
Claim C9: confidence bounds.
-/

theorem confQ_bounds {q : ℚ} (h0 : 0 ≤ q) (h1 : q ≤ 1) :
    0 ≤ ((q : ℚ) : ℝ) ∧ ((q : ℚ) : ℝ) ≤ 1 :=
  ⟨by exact_mod_cast h0, by exact_mod_cast h1⟩

theorem roundTo2R_bounds {x : ℝ} (h0 : 0 ≤ x) (h1 : x ≤ 1) :
    0 ≤ roundTo2R x ∧ roundTo2R x ≤ 1 := by
  unfold roundTo2R
  constructor
  · apply div_nonneg _ (by norm_num)
    have h : (0 : ℤ) ≤ round (x * 100) := by
      rw [round_eq]
      apply Int.le_floor.mpr
      push_cast
      linarith
    exact_mod_cast h
  · rw [div_le_one (by norm_num : (0 : ℝ) < 100)]
    have h : round (x * 100) ≤ 100 := by
      rw [round_eq]
      have hle : x * 100 + 1/2 ≤ (100 : ℝ) + 1/2 := by linarith
      calc ⌊x * 100 + 1/2⌋ ≤ ⌊(100 : ℝ) + 1/2⌋ := Int.floor_mono hle
        _ = 100 := Int.floor_eq_iff.mpr (by constructor <;> norm_num)
    exact_mod_cast h

theorem revenge_conf_bounds (l : List Trade) :
    0 ≤ (_detect_revenge_trading l).confidence ∧
      (_detect_revenge_trading l).confidence ≤ 1 := by
  unfold _detect_revenge_trading
  split
  · norm_num
  · dsimp only
    apply confQ_bounds
    · apply le_min _ zero_le_one
      apply mul_nonneg _ (by norm_num)
      split
      · next h1 =>
        apply div_nonneg (Nat.cast_nonneg _)
        have h2 : (1 : ℚ) < (l.length : ℚ) := by exact_mod_cast h1
        linarith
      · exact le_refl 0
    · exact min_le_right _ _

theorem overtrading_conf_bounds (l : List Trade) (hs : List.Sorted byTime l) :
    0 ≤ (_detect_overtrading l).confidence ∧
      (_detect_overtrading l).confidence ≤ 1 := by
  unfold _detect_overtrading
  split
  · norm_num
  · next h2 =>
    dsimp only
    apply confQ_bounds
    · apply le_min _ zero_le_one
      apply div_nonneg _ (by norm_num)
      apply div_nonneg (Nat.cast_nonneg _)
      have hne : l ≠ [] := List.length_pos.mp (by omega)
      have hfl := sorted_head_le_getLast l hs hne
      have hd : (0 : ℤ) ≤ ((l.getLast?.map Trade.purchase_time).getD 0 -
          (l.head?.map Trade.purchase_time).getD 0).fdiv 86400 :=
        Int.fdiv_nonneg (by omega) (by omega)
      split
      · norm_num
      · exact_mod_cast hd
    · exact min_le_right _ _

theorem timing_conf_bounds (l : List Trade) :
    0 ≤ (_detect_consistent_timing l).confidence ∧
      (_detect_consistent_timing l).confidence ≤ 1 := by
  unfold _detect_consistent_timing
  split
  · norm_num
  · dsimp only
    apply roundTo2R_bounds
    · exact le_max_left 0 _
    · apply max_le zero_le_one
      have hstd : (0 : ℝ) ≤
          (if allEqualNE (l.map fun t => (hourOf t.purchase_time : ℚ)) then (0 : ℝ)
            else Real.sqrt ((sampleVar (l.map fun t => (hourOf t.purchase_time : ℚ)) : ℚ) : ℝ)) := by
        split
        · exact le_refl 0
        · exact Real.sqrt_nonneg _
      linarith

theorem risk_conf_bounds (l : List Trade) :
    0 ≤ (_detect_risk_issues l).confidence ∧
      (_detect_risk_issues l).confidence ≤ 1 := by
  unfold _detect_risk_issues
  split
  · norm_num
  · dsimp only
    split
    · norm_num
    · split
      · next r hr =>
        apply confQ_bounds
        · split
          · next h1 =>
            exact le_min (div_nonneg (by linarith) (by norm_num)) zero_le_one
          · exact le_refl 0
        · split
          · exact min_le_right _ _
          · exact zero_le_one
      · norm_num

/-- Claim C9: every PatternDetectionResult produced by detect_patterns (each
of the four detectors, run on the time-sorted list) has a confidence between
0 and 1 inclusive, including the edge cases where the risk ratio is the
float infinity (confidence exactly 1) and where the hour standard deviation
exceeds 6 (the max with 0 floors the confidence before rounding). -/
theorem C9_confidence_bounds (trades : List Trade) (r : PatternDetectionResult)
    (hr : r ∈ detect_patterns trades) : 0 ≤ r.confidence ∧ r.confidence ≤ 1 := by
  match trades, hr with
  | t :: ts, hr =>
    have hsorted : List.Sorted byTime (sortByTime (t :: ts)) :=
      List.sorted_insertionSort byTime (t :: ts)
    rw [show detect_patterns (t :: ts) =
      [_detect_revenge_trading (sortByTime (t :: ts)),
       _detect_overtrading (sortByTime (t :: ts)),
       _detect_consistent_timing (sortByTime (t :: ts)),
       _detect_risk_issues (sortByTime (t :: ts))] from rfl] at hr
    simp only [List.mem_cons, List.not_mem_nil, or_false] at hr
    rcases hr with rfl | rfl | rfl | rfl
    · exact revenge_conf_bounds _
    · exact overtrading_conf_bounds _ hsorted
    · exact timing_conf_bounds _
    · exact risk_conf_bounds _

theorem C9_witness :
    _detect_overtrading (sortByTime [tradeAt 0 1]) ∈ detect_patterns [tradeAt 0 1] ∧
      0 ≤ (_detect_overtrading (sortByTime [tradeAt 0 1])).confidence ∧
      (_detect_overtrading (sortByTime [tradeAt 0 1])).confidence ≤ 1 := by
  have hmem : _detect_overtrading (sortByTime [tradeAt 0 1]) ∈ detect_patterns [tradeAt 0 1] := by
    rw [show detect_patterns [tradeAt 0 1] =
      [_detect_revenge_trading (sortByTime [tradeAt 0 1]),
       _detect_overtrading (sortByTime [tradeAt 0 1]),
       _detect_consistent_timing (sortByTime [tradeAt 0 1]),
       _detect_risk_issues (sortByTime [tradeAt 0 1])] from rfl]
    exact List.mem_cons_of_mem _ (List.mem_cons_self _ _)
  exact ⟨hmem, (C9_confidence_bounds [tradeAt 0 1] _ hmem).1,
    (C9_confidence_bounds [tradeAt 0 1] _ hmem).2⟩

/-!
Claim C4: most-traded keys. The association-list count map is related to
occurrence counts and first-occurrence order.
-/

theorem cnt_bump (al : List (String × ℕ)) (k k' : String) :
    cnt (bump al k) k' = cnt al k' + if k' = k then 1 else 0 := by
  induction al with
  | nil =>
    by_cases h : k' = k <;> simp [bump, cnt, h]
  | cons p rest ih =>
    obtain ⟨a, c⟩ := p
    unfold bump
    by_cases h : k = a
    · rw [if_pos h]
      unfold cnt
      by_cases h' : k' = a
      · rw [if_pos h', if_pos h']
        have : k' = k := h ▸ h'
        simp [this]
      · rw [if_neg h', if_neg h']
        have : ¬k' = k := fun he => h' (h ▸ he)
        simp [this]
    · rw [if_neg h]
      unfold cnt
      by_cases h' : k' = a
      · rw [if_pos h', if_pos h']
        have : ¬k' = k := fun he => h (h' ▸ he).symm
        simp [this]
      · rw [if_neg h', if_neg h']
        exact ih

theorem bump_fst_mem {al : List (String × ℕ)} {k : String} (h : k ∈ al.map Prod.fst) :
    (bump al k).map Prod.fst = al.map Prod.fst := by
  induction al with
  | nil => simp at h
  | cons p rest ih =>
    obtain ⟨a, c⟩ := p
    unfold bump
    by_cases hk : k = a
    · rw [if_pos hk]
      rfl
    · rw [if_neg hk]
      have h' : k ∈ rest.map Prod.fst := by
        rw [List.map_cons] at h
        rcases List.mem_cons.mp h with he | hm
        · exact absurd he hk
        · exact hm
      simp [ih h']

theorem bump_fst_not_mem {al : List (String × ℕ)} {k : String} (h : k ∉ al.map Prod.fst) :
    (bump al k).map Prod.fst = al.map Prod.fst ++ [k] := by
  induction al with
  | nil => rfl
  | cons p rest ih =>
    obtain ⟨a, c⟩ := p
    unfold bump
    have hk : ¬k = a := by
      intro he
      exact h (by simp [he])
    rw [if_neg hk]
    have h' : k ∉ rest.map Prod.fst := by
      intro hm
      exact h (by simp [hm])
    simp [ih h']

theorem countKeys_concat (keys : List String) (k : String) :
    countKeys (keys ++ [k]) = bump (countKeys keys) k := by
  unfold countKeys
  rw [List.foldl_append]
  rfl

theorem cnt_countKeys (keys : List String) (k : String) :
    cnt (countKeys keys) k = keys.countP fun x => decide (x = k) := by
  induction keys using List.reverseRecOn with
  | nil => rfl
  | append_singleton keys k0 ih =>
    rw [countKeys_concat, cnt_bump, ih, List.countP_append]
    by_cases h : k = k0 <;>
      simp [List.countP_cons, h, eq_comm]

theorem countKeys_fst_nodup (keys : List String) : ((countKeys keys).map Prod.fst).Nodup := by
  induction keys using List.reverseRecOn with
  | nil => simp [countKeys]
  | append_singleton keys k0 ih =>
    rw [countKeys_concat]
    by_cases h : k0 ∈ (countKeys keys).map Prod.fst
    · rw [bump_fst_mem h]
      exact ih
    · rw [bump_fst_not_mem h]
      simp [List.nodup_append, ih, h]

theorem countKeys_fst_mem (keys : List String) (k : String) :
    k ∈ (countKeys keys).map Prod.fst ↔ k ∈ keys := by
  induction keys using List.reverseRecOn with
  | nil => simp [countKeys]
  | append_singleton keys k0 ih =>
    rw [countKeys_concat]
    by_cases h : k0 ∈ (countKeys keys).map Prod.fst
    · rw [bump_fst_mem h]
      rw [ih]
      constructor
      · intro hk
        exact List.mem_append_left _ hk
      · intro hk
        rcases List.mem_append.mp hk with hk | hk
        · exact hk
        · rw [List.mem_singleton] at hk
          subst hk
          exact ih.mp h
    · rw [bump_fst_not_mem h]
      simp [ih]

theorem firstIdx_append_of_mem {keys : List String} {k : String} (h : k ∈ keys)
    (l2 : List String) : firstIdx (keys ++ l2) k = firstIdx keys k := by
  induction keys with
  | nil => cases h
  | cons a t ih =>
    by_cases hk : k = a
    · simp [firstIdx, hk]
    · have hmem : k ∈ t := by
        rcases List.mem_cons.mp h with he | hm
        · exact absurd he hk
        · exact hm
      simp [firstIdx, hk, ih hmem]

theorem firstIdx_append_of_not_mem {keys : List String} {k : String} (h : k ∉ keys)
    (l2 : List String) : firstIdx (keys ++ l2) k = keys.length + firstIdx l2 k := by
  induction keys with
  | nil => simp [firstIdx]
  | cons a t ih =>
    have hk : ¬k = a := fun he => h (by simp [he])
    have h' : k ∉ t := fun hm => h (by simp [hm])
    simp [firstIdx, hk, ih h']
    omega

theorem firstIdx_lt_length {keys : List String} {k : String} (h : k ∈ keys) :
    firstIdx keys k < keys.length := by
  induction keys with
  | nil => cases h
  | cons a t ih =>
    by_cases hk : k = a
    · simp [firstIdx, hk]
    · have hmem : k ∈ t := by
        rcases List.mem_cons.mp h with he | hm
        · exact absurd he hk
        · exact hm
      rw [show firstIdx (a :: t) k = firstIdx t k + 1 from by simp [firstIdx, hk],
        List.length_cons]
      have := ih hmem
      omega

theorem countKeys_fst_pairwise (keys : List String) :
    ((countKeys keys).map Prod.fst).Pairwise
      (fun a b => firstIdx keys a < firstIdx keys b) := by
  induction keys using List.reverseRecOn with
  | nil => simp [countKeys]
  | append_singleton keys k0 ih =>
    rw [countKeys_concat]
    by_cases h : k0 ∈ (countKeys keys).map Prod.fst
    · rw [bump_fst_mem h]
      refine List.Pairwise.imp_of_mem ?_ ih
      intro a b ha hb hr
      rw [firstIdx_append_of_mem ((countKeys_fst_mem keys a).mp ha),
        firstIdx_append_of_mem ((countKeys_fst_mem keys b).mp hb)]
      exact hr
    · rw [bump_fst_not_mem h]
      apply List.pairwise_append.mpr
      refine ⟨?_, List.pairwise_singleton _ _, ?_⟩
      · refine List.Pairwise.imp_of_mem ?_ ih
        intro a b ha hb hr
        rw [firstIdx_append_of_mem ((countKeys_fst_mem keys a).mp ha),
          firstIdx_append_of_mem ((countKeys_fst_mem keys b).mp hb)]
        exact hr
      · intro a ha b hb
        have hak : a ∈ keys := (countKeys_fst_mem keys a).mp ha
        have hk0 : k0 ∉ keys := fun hmem => h ((countKeys_fst_mem keys k0).mpr hmem)
        rw [List.mem_singleton] at hb
        subst hb
        rw [firstIdx_append_of_mem hak, firstIdx_append_of_not_mem hk0]
        have hlt := firstIdx_lt_length hak
        omega

theorem cnt_of_mem_nodup {al : List (String × ℕ)} (hnd : (al.map Prod.fst).Nodup)
    {k : String} {c : ℕ} (h : (k, c) ∈ al) : cnt al k = c := by
  induction al with
  | nil => cases h
  | cons p rest ih =>
    obtain ⟨a, c'⟩ := p
    rw [List.map_cons] at hnd
    rcases List.mem_cons.mp h with heq | hmem
    · obtain ⟨hk, hc⟩ := Prod.mk.injEq .. ▸ heq
      subst hk
      subst hc
      unfold cnt
      rw [if_pos rfl]
    · have hk : k ∈ rest.map Prod.fst := by
        have : (k, c).fst ∈ rest.map Prod.fst := List.mem_map_of_mem Prod.fst hmem
        exact this
      have hna : (a, c').fst ∉ rest.map Prod.fst := (List.nodup_cons.mp hnd).1
      have hne : ¬k = a := fun he => hna (he ▸ hk)
      unfold cnt
      rw [if_neg hne]
      exact ih (List.nodup_cons.mp hnd).2 hmem

theorem mem_of_fst_mem {al : List (String × ℕ)} {k : String}
    (h : k ∈ al.map Prod.fst) : (k, cnt al k) ∈ al := by
  induction al with
  | nil => simp at h
  | cons p rest ih =>
    obtain ⟨a, c⟩ := p
    by_cases hk : k = a
    · subst hk
      have hc : cnt ((k, c) :: rest) k = c := by
        unfold cnt
        rw [if_pos rfl]
      rw [hc]
      exact List.mem_cons_self _ _
    · have hk' : k ∈ rest.map Prod.fst := by
        rw [List.map_cons] at h
        rcases List.mem_cons.mp h with he | hm
        · exact absurd he hk
        · exact hm
      have hc : cnt ((a, c) :: rest) k = cnt rest k := by
        rw [show cnt ((a, c) :: rest) k = if k = a then c else cnt rest k from rfl, if_neg hk]
      rw [hc]
      exact List.mem_cons_of_mem _ (ih hk')

theorem maxKeyAux_spec (rest : List (String × ℕ)) :
    ∀ (bk : String) (bc : ℕ), ∃ l1 l2 c,
      (bk, bc) :: rest = l1 ++ (maxKeyAux bk bc rest, c) :: l2 ∧
      (∀ p ∈ l1, p.2 < c) ∧ (∀ p ∈ l2, p.2 ≤ c) := by
  induction rest with
  | nil =>
    intro bk bc
    exact ⟨[], [], bc, rfl, by simp, by simp⟩
  | cons q r ih =>
    intro bk bc
    obtain ⟨k, c⟩ := q
    unfold maxKeyAux
    by_cases h : bc < c
    · rw [if_pos h]
      obtain ⟨l1, l2, c', heq, hl1, hl2⟩ := ih k c
      have hcc : c ≤ c' := by
        cases l1 with
        | nil =>
          rw [List.nil_append] at heq
          injection heq with h1 h2
          injection h1 with hk1 hc1
          omega
        | cons q0 l1' =>
          rw [List.cons_append] at heq
          injection heq with h1 h2
          have hq0 : q0.2 < c' := hl1 q0 (List.mem_cons_self _ _)
          rw [← h1] at hq0
          omega
      refine ⟨(bk, bc) :: l1, l2, c', ?_, ?_, hl2⟩
      · rw [List.cons_append, ← heq]
      · intro p hp
        rcases List.mem_cons.mp hp with rfl | hp'
        · dsimp only
          omega
        · exact hl1 p hp'
    · rw [if_neg h]
      obtain ⟨l1, l2, c', heq, hl1, hl2⟩ := ih bk bc
      cases l1 with
      | nil =>
        rw [List.nil_append] at heq
        injection heq with h1 h2
        injection h1 with hk1 hc1
        refine ⟨[], (k, c) :: l2, c', ?_, by simp, ?_⟩
        · rw [List.nil_append, ← h2, ← hk1, ← hc1]
        · intro p hp
          rcases List.mem_cons.mp hp with rfl | hp'
          · dsimp only
            omega
          · exact hl2 p hp'
      | cons q0 l1' =>
        rw [List.cons_append] at heq
        injection heq with h1 h2
        have hq0 : q0.2 < c' := hl1 q0 (List.mem_cons_self _ _)
        rw [← h1] at hq0
        refine ⟨(bk, bc) :: (k, c) :: l1', l2, c', ?_, ?_, hl2⟩
        · rw [List.cons_append, List.cons_append, ← h2]
        · intro p hp
          rcases List.mem_cons.mp hp with rfl | hp'
          · dsimp only
            omega
          · rcases List.mem_cons.mp hp' with rfl | hp''
            · dsimp only
              omega
            · exact hl1 p (List.mem_cons_of_mem _ hp'')

theorem maxKey_countKeys_spec (keys : List String) (hne : keys ≠ []) :
    maxKey (countKeys keys) ∈ keys ∧
    (∀ k, (keys.countP fun x => decide (x = k)) ≤
      (keys.countP fun x => decide (x = maxKey (countKeys keys)))) ∧
    ∀ k ∈ keys, (keys.countP fun x => decide (x = k)) =
        (keys.countP fun x => decide (x = maxKey (countKeys keys))) →
      firstIdx keys (maxKey (countKeys keys)) ≤ firstIdx keys k := by
  cases hal : countKeys keys with
  | nil =>
    exfalso
    match keys, hne with
    | k0 :: keys', _ =>
      have hmem : k0 ∈ (countKeys (k0 :: keys')).map Prod.fst :=
        (countKeys_fst_mem _ k0).mpr (List.mem_cons_self _ _)
      rw [hal] at hmem
      simp at hmem
  | cons e restal =>
    obtain ⟨ek, ec⟩ := e
    rw [← hal]
    obtain ⟨l1, l2, c, heq, hl1, hl2⟩ := maxKeyAux_spec restal ek ec
    have hmk : maxKey (countKeys keys) = maxKeyAux ek ec restal := by
      rw [hal]
      rfl
    set K := maxKey (countKeys keys) with hKdef
    have heqal : countKeys keys = l1 ++ (K, c) :: l2 := by
      rw [hmk, hal]
      exact heq
    have hnd := countKeys_fst_nodup keys
    have hKmem : (K, c) ∈ countKeys keys := by
      rw [heqal]
      exact List.mem_append_right _ (List.mem_cons_self _ _)
    have hKc : cnt (countKeys keys) K = c := cnt_of_mem_nodup hnd hKmem
    have hKkeys : K ∈ keys := by
      apply (countKeys_fst_mem keys _).mp
      exact List.mem_map_of_mem Prod.fst hKmem
    have hcK : (keys.countP fun x => decide (x = K)) = c := by
      rw [← cnt_countKeys]
      exact hKc
    have hcount : ∀ k ∈ keys, (keys.countP fun x => decide (x = k)) ≤ c := by
      intro k hk
      rw [← cnt_countKeys]
      obtain ⟨ck, hck⟩ : ∃ n, cnt (countKeys keys) k = n := ⟨_, rfl⟩
      rw [hck]
      have hmem : (k, ck) ∈ countKeys keys := by
        rw [← hck]
        exact mem_of_fst_mem ((countKeys_fst_mem keys k).mpr hk)
      rw [heqal] at hmem
      rcases List.mem_append.mp hmem with hm | hm
      · exact le_of_lt (hl1 _ hm)
      · rcases List.mem_cons.mp hm with he | hm'
        · injection he with h1 h2
          omega
        · exact hl2 _ hm'
    refine ⟨hKkeys, ?_, ?_⟩
    · intro k
      by_cases hk : k ∈ keys
      · rw [hcK]
        exact hcount k hk
      · have h0 : (keys.countP fun x => decide (x = k)) = 0 := by
          apply List.countP_eq_zero.mpr
          intro a ha hd
          rw [decide_eq_true_eq] at hd
          exact hk (hd ▸ ha)
        rw [h0]
        exact Nat.zero_le _
    · intro k hk hcnt
      have hkc : cnt (countKeys keys) k = c := by
        rw [cnt_countKeys, hcnt, hcK]
      have hmem : (k, c) ∈ countKeys keys := by
        rw [← hkc]
        exact mem_of_fst_mem ((countKeys_fst_mem keys k).mpr hk)
      rw [heqal] at hmem
      rcases List.mem_append.mp hmem with hm | hm
      · have hlt := hl1 _ hm
        dsimp only at hlt
        exact absurd hlt (lt_irrefl c)
      · rcases List.mem_cons.mp hm with he | hm'
        · injection he with h1 h2
          rw [h1]
        · have hpw := countKeys_fst_pairwise keys
          rw [heqal, List.map_append, List.map_cons] at hpw
          have hpw2 := (List.pairwise_append.mp hpw).2.1
          have hrel := (List.pairwise_cons.mp hpw2).1
          have hkl2 : k ∈ l2.map Prod.fst :=
            List.mem_map_of_mem Prod.fst hm'
          exact le_of_lt (hrel k hkl2)

/-- Claim C4: for every nonempty trade list, mostTradedSymbol (and
analogously mostTradedContractType) is a key that actually occurs among the
trades' raw grouping keys (missing values read as Unknown, case-sensitive),
its occurrence count is maximal, and when several keys are tied for the
highest count, the key first encountered while scanning the trades in input
order wins the tie (its first-occurrence index is least among tied keys). -/
theorem C4_most_traded (trades : List Trade) (h : trades ≠ []) :
    ((calculate_statistics trades).most_traded_symbol ∈ trades.map symbolKey ∧
      (∀ k, ((trades.map symbolKey).countP fun x => decide (x = k)) ≤
        ((trades.map symbolKey).countP fun x =>
          decide (x = (calculate_statistics trades).most_traded_symbol))) ∧
      ∀ k ∈ trades.map symbolKey,
        ((trades.map symbolKey).countP fun x => decide (x = k)) =
          ((trades.map symbolKey).countP fun x =>
            decide (x = (calculate_statistics trades).most_traded_symbol)) →
        firstIdx (trades.map symbolKey)
            ((calculate_statistics trades).most_traded_symbol) ≤
          firstIdx (trades.map symbolKey) k) ∧
    ((calculate_statistics trades).most_traded_contract_type ∈ trades.map contractKey ∧
      (∀ k, ((trades.map contractKey).countP fun x => decide (x = k)) ≤
        ((trades.map contractKey).countP fun x =>
          decide (x = (calculate_statistics trades).most_traded_contract_type))) ∧
      ∀ k ∈ trades.map contractKey,
        ((trades.map contractKey).countP fun x => decide (x = k)) =
          ((trades.map contractKey).countP fun x =>
            decide (x = (calculate_statistics trades).most_traded_contract_type)) →
        firstIdx (trades.map contractKey)
            ((calculate_statistics trades).most_traded_contract_type) ≤
          firstIdx (trades.map contractKey) k) := by
  have hsym : (calculate_statistics trades).most_traded_symbol =
      maxKey (countKeys (trades.map symbolKey)) := by
    unfold calculate_statistics
    rw [if_neg h]
  have hcon : (calculate_statistics trades).most_traded_contract_type =
      maxKey (countKeys (trades.map contractKey)) := by
    unfold calculate_statistics
    rw [if_neg h]
  rw [hsym, hcon]
  exact ⟨maxKey_countKeys_spec (trades.map symbolKey)
      fun hmap => h (List.map_eq_nil_iff.mp hmap),
    maxKey_countKeys_spec (trades.map contractKey)
      fun hmap => h (List.map_eq_nil_iff.mp hmap)⟩

/-- Three trades: symbols A, B, A in input order. -/
def tradesC4 : List Trade := [tradeSym 0 "A", tradeSym 60 "B", tradeSym 120 "A"]

theorem C4_witness :
    tradesC4 ≠ [] ∧
      (calculate_statistics tradesC4).most_traded_symbol ∈ tradesC4.map symbolKey :=
  ⟨by decide, (C4_most_traded tradesC4 (by decide)).1.1⟩

/-!
Claim C5: order-(in)dependence of the statistics snapshot.
-/

theorem perm_nil_iff {α : Type} {a b : List α} (h : a.Perm b) : a = [] ↔ b = [] :=
  ⟨fun h0 => List.nil_perm.mp (h0 ▸ h), fun h0 => List.nil_perm.mp (h0 ▸ h.symm)⟩

theorem maximum_perm {a b : List ℚ} (h : a.Perm b) : a.maximum = b.maximum := by
  rcases ha : a.maximum with _ | m
  · have ha' : a = [] := List.maximum_eq_bot.mp ha
    have hb : b = [] := (perm_nil_iff h).mp ha'
    rw [hb]
    rfl
  · have hm := List.maximum_eq_coe_iff.mp ha
    symm
    apply List.maximum_eq_coe_iff.mpr
    exact ⟨h.mem_iff.mp hm.1, fun x hx => hm.2 x (h.mem_iff.mpr hx)⟩

theorem minimum_perm {a b : List ℚ} (h : a.Perm b) : a.minimum = b.minimum := by
  rcases ha : a.minimum with _ | m
  · have ha' : a = [] := List.minimum_eq_top.mp ha
    have hb : b = [] := (perm_nil_iff h).mp ha'
    rw [hb]
    rfl
  · have hm := List.minimum_eq_coe_iff.mp ha
    symm
    apply List.minimum_eq_coe_iff.mpr
    exact ⟨h.mem_iff.mp hm.1, fun x hx => hm.2 x (h.mem_iff.mpr hx)⟩

theorem mean_perm {a b : List ℚ} (h : a.Perm b) : mean a = mean b := by
  unfold mean
  rw [h.sum_eq, h.length_eq]

theorem ite_round2_perm {a b : List ℚ} (hab : a = [] ↔ b = []) {x y : ℚ} (hxy : x = y) :
    (if a ≠ [] then round2 x else 0) = (if b ≠ [] then round2 y else 0) := by
  by_cases h0 : a = []
  · rw [if_neg (not_not_intro h0), if_neg (not_not_intro (hab.mp h0))]
  · rw [if_pos h0, if_pos fun hb => h0 (hab.mpr hb), hxy]

theorem calculate_win_rate_perm {a b : List Trade} (h : a.Perm b) :
    calculate_win_rate a = calculate_win_rate b := by
  unfold calculate_win_rate
  rcases eq_or_ne a [] with rfl | hne
  · rw [List.nil_perm] at h
    rw [← h]
  · have hne' : b ≠ [] := fun h0 => hne ((perm_nil_iff h).mpr h0)
    rw [if_neg hne, if_neg hne', h.countP_eq, h.length_eq]

theorem calculate_statistics_unfold (t : List Trade) (ht : t ≠ []) :
    calculate_statistics t =
      { total_trades := t.length
        winning_trades := (profitsOf t).length
        losing_trades := (lossesOf t).length
        win_rate := calculate_win_rate t
        total_profit_loss := round2 (t.map plOrZero).sum
        average_profit := if profitsOf t ≠ [] then round2 (mean (profitsOf t)) else 0
        average_loss := if lossesOf t ≠ [] then round2 (mean (lossesOf t)) else 0
        largest_win := if profitsOf t ≠ [] then round2 (pyMax (profitsOf t)) else 0
        largest_loss := if lossesOf t ≠ [] then round2 (pyMin (lossesOf t)) else 0
        average_trade_duration_hours :=
          if tradeDurationsHours t ≠ [] then round2 (mean (tradeDurationsHours t)) else 0
        most_traded_symbol := maxKey (countKeys (t.map symbolKey))
        most_traded_contract_type := maxKey (countKeys (t.map contractKey)) } := by
  unfold calculate_statistics
  rw [if_neg ht]

/-- Claim C5, counterexample: the snapshot is not invariant under every
permutation of the input; with two trades on distinct symbols the
most-traded tie is broken by first encounter, so swapping the trades swaps
the reported most-traded symbol. -/
theorem C5_counterexample :
    ([tradeSym 0 "A", tradeSym 0 "B"] : List Trade).Perm [tradeSym 0 "B", tradeSym 0 "A"] ∧
      calculate_statistics [tradeSym 0 "A", tradeSym 0 "B"] ≠
        calculate_statistics [tradeSym 0 "B", tradeSym 0 "A"] := by
  refine ⟨by decide, fun h => ?_⟩
  have h1 := congrArg TradeStatistics.most_traded_symbol h
  rw [show (calculate_statistics [tradeSym 0 "A", tradeSym 0 "B"]).most_traded_symbol = "A"
      from rfl,
    show (calculate_statistics [tradeSym 0 "B", tradeSym 0 "A"]).most_traded_symbol = "B"
      from rfl] at h1
  exact absurd h1 (by decide)

/-- Claim C5 (amended): for every permutation of the trade list,
computeStatistics returns the same value in every field except the two
most-traded fields, whose tie-break depends on the first-encounter order of
the keys (the counterexample shows a permutation changing
most_traded_symbol when counts tie). -/
theorem C5_statistics_perm (l l' : List Trade) (hp : l.Perm l') :
    (calculate_statistics l).total_trades = (calculate_statistics l').total_trades ∧
    (calculate_statistics l).winning_trades = (calculate_statistics l').winning_trades ∧
    (calculate_statistics l).losing_trades = (calculate_statistics l').losing_trades ∧
    (calculate_statistics l).win_rate = (calculate_statistics l').win_rate ∧
    (calculate_statistics l).total_profit_loss = (calculate_statistics l').total_profit_loss ∧
    (calculate_statistics l).average_profit = (calculate_statistics l').average_profit ∧
    (calculate_statistics l).average_loss = (calculate_statistics l').average_loss ∧
    (calculate_statistics l).largest_win = (calculate_statistics l').largest_win ∧
    (calculate_statistics l).largest_loss = (calculate_statistics l').largest_loss ∧
    (calculate_statistics l).average_trade_duration_hours =
      (calculate_statistics l').average_trade_duration_hours := by
  rcases eq_or_ne l [] with rfl | hne
  · rw [List.nil_perm] at hp
    rw [← hp]
    exact ⟨rfl, rfl, rfl, rfl, rfl, rfl, rfl, rfl, rfl, rfl⟩
  · have hne' : l' ≠ [] := fun h0 => hne ((perm_nil_iff hp).mpr h0)
    have hpro : (profitsOf l).Perm (profitsOf l') := List.Perm.filterMap _ hp
    have hlos : (lossesOf l).Perm (lossesOf l') := List.Perm.filterMap _ hp
    have hdur : (tradeDurationsHours l).Perm (tradeDurationsHours l') :=
      List.Perm.filterMap _ hp
    rw [calculate_statistics_unfold l hne, calculate_statistics_unfold l' hne']
    refine ⟨hp.length_eq, hpro.length_eq, hlos.length_eq, calculate_win_rate_perm hp,
      ?_, ?_, ?_, ?_, ?_, ?_⟩
    · rw [(hp.map plOrZero).sum_eq]
    · exact ite_round2_perm (perm_nil_iff hpro) (mean_perm hpro)
    · exact ite_round2_perm (perm_nil_iff hlos) (mean_perm hlos)
    · exact ite_round2_perm (perm_nil_iff hpro)
        (congrArg (fun m => WithBot.unbot' 0 m) (maximum_perm hpro))
    · exact ite_round2_perm (perm_nil_iff hlos)
        (congrArg (fun m => WithTop.untop' 0 m) (minimum_perm hlos))
    · exact ite_round2_perm (perm_nil_iff hdur) (mean_perm hdur)

theorem C5_witness :
    ([tradeAt 0 1, tradeAt 60 (-2)] : List Trade).Perm [tradeAt 60 (-2), tradeAt 0 1] ∧
      (calculate_statistics [tradeAt 0 1, tradeAt 60 (-2)]).win_rate =
        (calculate_statistics [tradeAt 60 (-2), tradeAt 0 1]).win_rate :=
  ⟨by decide, (C5_statistics_perm _ _ (by decide)).2.2.2.1⟩
